import Mathlib

/-!
Verification development for the AISP provenance-graph core
(`src/core/state.py`, `src/core/op.py`, `src/core/agent.py`).

The Python objects are shallowly embedded: a `State` object's mutable fields
become a record `StateObj`, the Python object heap becomes a total map from
object identity (`id(state)`, modelled as `Nat`) to field values, and every
mutating method becomes a function returning the updated heap.  Exceptions
become `Except String`.  Timestamps, uuids and console printing are not
modelled; they carry no graph structure.
-/

namespace AISP

/-- Identity data of an `Op` (`src/core/op.py`, class `Op`): the operation's
`name` attribute and its Python class name (renderers use `__class__.__name__`).
The `forward` production logic is passed separately to the wiring algorithm,
mirroring that `forward` is an overridable method. -/
structure Op where
  opId : Nat
  name : String
  className : String
  deriving DecidableEq, Repr

/-- Field values of a Python `State` object (`src/core/state.py`, `State`).
`payload_type` records only `type(payload).__name__` — the payload value is
opaque to the core and only its type name is ever rendered.
`is_origin_attr` models the *instance attribute* `is_origin`: `none` while the
class method `State.is_origin` is visible, `some b` once an assignment
`state.is_origin = b` has shadowed the method (as `OpFunction.apply` does). -/
structure StateObj where
  payload_type : String
  creator_op : Option Op
  inputs : List Nat
  can_trace : Bool
  note : String
  is_origin_attr : Option Bool
  deriving DecidableEq, Repr

instance : Inhabited StateObj :=
  ⟨{ payload_type := "BasePayload", creator_op := none, inputs := [],
     can_trace := true, note := "", is_origin_attr := none }⟩

/-- The heap of `State` objects: object identity (a `Nat`, standing for the
Python `id(state)`) to current field values. -/
def Heap := Nat → StateObj

/-- Overwrite the fields of the object with identity `i`. -/
def updateHeap (h : Heap) (i : Nat) (st : StateObj) : Heap :=
  fun j => if j = i then st else h j

/-- `State.__init__` (`src/core/state.py` lines 32-49): stores the payload's
type, the two optional provenance arguments (with `inputs or []` defaulting),
the trace flag and the note.  No validation relates `creator_op` to `inputs`.
A freshly constructed object has no shadowing `is_origin` attribute. -/
def mkState (payload_type : String) (creator_op : Option Op)
    (inputs : Option (List Nat)) (can_trace : Bool) (note : String) : StateObj :=
  { payload_type := payload_type
    creator_op := creator_op
    inputs := inputs.getD []
    can_trace := can_trace
    note := note
    is_origin_attr := none }

/-- `State.detach`: a new origin object sharing the payload. -/
def StateObj.detach (st : StateObj) : StateObj :=
  mkState st.payload_type none (some []) false ("Detached from " ++ st.note)

/-- `State.clone`: a new object with copied payload and the same provenance
pointers.  Being built through `State.__init__`, the clone has a working
`is_origin` method even when the source's was shadowed. -/
def StateObj.clone (st : StateObj) : StateObj :=
  mkState st.payload_type st.creator_op (some st.inputs) st.can_trace
    ("Cloned from " ++ st.note)

/-- Calling `state.is_origin()`.  Python attribute lookup finds the instance
attribute first: if `OpFunction.apply` has assigned `state.is_origin = False`,
the lookup yields a `bool` and the call raises `TypeError`; otherwise the
class method runs and returns `creator_op is None`. -/
def isOriginCall (st : StateObj) : Except String Bool :=
  match st.is_origin_attr with
  | some _ => .error "TypeError: bool object is not callable"
  | none => .ok st.creator_op.isNone

/-- Calling `state.get_source()` (`src/core/state.py` lines 104-111).  The
method begins with `if self.is_origin():`, so it propagates the `TypeError`
when the method has been shadowed. -/
def getSourceCall (st : StateObj) : Except String String :=
  match isOriginCall st with
  | .error e => .error e
  | .ok true => .ok "原始输入"
  | .ok false =>
    match st.creator_op with
    | some op => .ok (op.className ++ "操作")
    | none => .ok "未知来源"

/-- A Python value returned by `forward`: either a `State` object (its heap
identity) or any other value (described by its type, for error messages). -/
inductive PyVal where
  | state (i : Nat)
  | other (desc : String)
  deriving DecidableEq, Repr

/-- The shape of `forward`'s return value: a bare value or a Python list. -/
inductive Fwd where
  | single (v : PyVal)
  | many (vs : List PyVal)
  deriving DecidableEq, Repr

/-- `if not isinstance(outputs, list): outputs = [outputs]`
(`src/core/op.py` lines 87-88). -/
def normalize : Fwd → List PyVal
  | .single v => [v]
  | .many vs => vs

/-- Result shape of `OpFunction.apply`:
`result_states[0] if len(result_states) == 1 else result_states`. -/
inductive ApplyRet where
  | one (i : Nat)
  | many (ids : List Nat)
  deriving DecidableEq, Repr

/-- The output-wiring loop of `OpFunction.apply` (`src/core/op.py` lines
91-101): walk the produced values in order; a `State` whose `creator_op` is
absent is stamped (`creator_op`, `inputs`, and the shadowing
`is_origin = False` attribute) and collected; a `State` already carrying a
`creator_op` is collected untouched; a non-`State` raises `TypeError`
immediately — the heap mutations made for earlier outputs persist. -/
def stampLoop (op : Op) (inputIds : List Nat) :
    List PyVal → Heap → List Nat → Heap × Except String (List Nat)
  | [], h, acc => (h, .ok acc)
  | .state i :: rest, h, acc =>
    let st := h i
    let h' := if st.creator_op = none
      then updateHeap h i
        { st with creator_op := some op, inputs := inputIds,
                  is_origin_attr := some false }
      else h
    stampLoop op inputIds rest h' (acc ++ [i])
  | .other d :: _, h, _ =>
    (h, .error ("Op " ++ op.name ++ " output must be State, got " ++ d))

/-- `OpFunction.apply` (`src/core/op.py` lines 63-103), the Wiring Algorithm.
Inputs are already `State` identities (the `isinstance` check on inputs is
discharged by typing).  `forward` is modelled as a pure function of the heap
and the input identities; an exception it raises is re-raised as
`RuntimeError("Op {name} failed: {e}")`.  Outputs are normalized to a list,
wired by `stampLoop`, and the singleton collapse is applied to the result. -/
def apply (op : Op) (fwd : Heap → List Nat → Except String Fwd)
    (inputIds : List Nat) (h : Heap) : Heap × Except String ApplyRet :=
  match fwd h inputIds with
  | .error e => (h, .error ("Op " ++ op.name ++ " failed: " ++ e))
  | .ok f =>
    match stampLoop op inputIds (normalize f) h [] with
    | (h', .error e) => (h', .error e)
    | (h', .ok ids) =>
      match ids with
      | [i] => (h', .ok (ApplyRet.one i))
      | l => (h', .ok (ApplyRet.many l))

/-- One `OpRecord` (`src/core/op.py` lines 19-53), without the unmodelled
uuid/timestamp/duration fields. -/
structure OpRecord where
  op_name : String
  inputs : List Nat
  output : Option Nat
  status : String
  error : Option String
  deriving DecidableEq, Repr

/-- `OpRecord.__init__`: a fresh record in status `started`. -/
def OpRecord.init (nm : String) (ins : List Nat) : OpRecord :=
  { op_name := nm, inputs := ins, output := none, status := "started",
    error := none }

/-- `OpRecord.complete` (the elapsed-time argument is not modelled). -/
def OpRecord.complete (r : OpRecord) (out : Nat) : OpRecord :=
  { r with output := some out, status := "completed" }

/-- `OpRecord.fail`. -/
def OpRecord.fail (r : OpRecord) (e : String) : OpRecord :=
  { r with status := "failed", error := some e }

/-- `Logbook` (`src/core/agent.py` lines 25-46): name, the ordered operation
records, and the ordered bubble (state-identity) list. -/
structure Logbook where
  name : String
  op_records : List OpRecord
  bubbles : List Nat
  deriving DecidableEq, Repr

/-- `Logbook.record` (`src/core/agent.py` lines 55-99), with the `verbose`
printing dropped.  Branch structure follows the source exactly: with an
`op_name`, missing `inputs` raises; a given `bubble` completes the record and
appends the bubble (any `error` argument is never consulted on this branch);
otherwise a given `error` fails the record; neither raises.  Without an
`op_name`, a bare bubble is appended, and nothing at all raises. -/
def logRecord (book : Logbook) (bubble : Option Nat) (op_name : Option String)
    (inputs : Option (List Nat)) (error : Option String) :
    Except String Logbook :=
  match op_name with
  | some nm =>
    match inputs with
    | none => .error "inputs is required when op_name is provided"
    | some ins =>
      let record := OpRecord.init nm ins
      match bubble with
      | some b =>
        let record := record.complete b
        .ok { book with op_records := book.op_records ++ [record],
                        bubbles := book.bubbles ++ [b] }
      | none =>
        match error with
        | some e =>
          let record := record.fail e
          .ok { book with op_records := book.op_records ++ [record] }
        | none =>
          .error "Either bubble or error must be provided for Op execution"
  | none =>
    match bubble with
    | some b => .ok { book with bubbles := book.bubbles ++ [b] }
    | none => .error "Either bubble or op_name must be provided"

/-- The success-path recording loop of `Op.__call__` (`src/core/op.py` lines
159-162): record each output bubble in order.  Returns the book after the
appends made so far together with the error of the first failing `record`
call, if any (in the source a raise here would leave the earlier appends in
place and jump to the `except` branch). -/
def recordOutputs (nm : String) (ins : List Nat) :
    Logbook → List Nat → Logbook × Option String
  | book, [] => (book, none)
  | book, o :: rest =>
    match logRecord book (some o) (some nm) (some ins) none with
    | .ok b' => recordOutputs nm ins b' rest
    | .error e => (book, some e)

/-- `Op.__call__` (`src/core/op.py` lines 136-169): run the Wiring Algorithm;
on success record every output bubble in the logbook (when one is given) and
return the result; on any exception record a failed attempt (when a logbook
is given) and re-raise. -/
def opCall (op : Op) (fwd : Heap → List Nat → Except String Fwd)
    (states : List Nat) (book : Option Logbook) (h : Heap) :
    Heap × Option Logbook × Except String ApplyRet :=
  match apply op fwd states h with
  | (h', .ok result) =>
    match book with
    | none => (h', none, .ok result)
    | some b =>
      let outputs := match result with
        | .one i => [i]
        | .many l => l
      match recordOutputs op.name states b outputs with
      | (b', none) => (h', some b', .ok result)
      | (b', some e) =>
        match logRecord b' none (some op.name) (some states) (some e) with
        | .ok b'' => (h', some b'', .error e)
        | .error e2 => (h', some b', .error e2)
  | (h', .error e) =>
    match book with
    | none => (h', none, .error e)
    | some b =>
      match logRecord b none (some op.name) (some states) (some e) with
      | .ok b' => (h', some b', .error e)
      | .error e2 => (h', some b, .error e2)

/-- The two-spaces-per-level indentation `'  ' * depth` of `State.backward`. -/
def indentOf (d : Nat) : String :=
  String.mk (List.replicate (2 * d) ' ')

/-- `max_depth is not None and depth > max_depth`
(`src/core/state.py` line 77). -/
def depthExceeded : Option Nat → Nat → Bool
  | none, _ => false
  | some k, d => decide (d > k)

/-- The bubble identifier `f"bubble_{id(self)}"` of a state with heap
identity `i`. -/
def bubbleId (i : Nat) : String :=
  "bubble_" ++ toString i

/-- One line of `build_tree` for the current node (`src/core/state.py` lines
83-87): id, payload type name, `←creator-class` or `(原始)`, and the note
when nonempty. -/
def backwardLine (h : Heap) (i : Nat) (d : Nat) : String :=
  let st := h i
  let creatorInfo := match st.creator_op with
    | some op => " ←" ++ op.className
    | none => " (原始)"
  let current := indentOf d ++ "🎈 " ++ bubbleId i ++ ": " ++ st.payload_type
    ++ creatorInfo
  if st.note ≠ "" then current ++ " | " ++ st.note else current

/-- The marker line of `build_tree` (`src/core/state.py` line 78), emitted
both for a revisited identity and for an exceeded depth bound. -/
def backwardMarker (i : Nat) (d : Nat) : String :=
  indentOf d ++ "🔄 " ++ bubbleId i ++ " (循环引用或深度限制)"

/-- Sequential traversal of a child list, threading the result strings and
the visited set left to right: `build_tree` passes the *same* mutable
`visited` set to every child, so a child's additions are seen by its later
siblings.  The node-level step is passed in as `f`. -/
def treeFold (f : Nat → Nat → Finset Nat → Option (String × Finset Nat)) :
    List Nat → Nat → Finset Nat → Option (List String × Finset Nat)
  | [], _, vis => some ([], vis)
  | j :: rest, d, vis =>
    match f j d vis with
    | none => none
    | some (s, vis') =>
      match treeFold f rest d vis' with
      | none => none
      | some (ls, vis'') => some (s :: ls, vis'')

/-- `build_tree` inside `State.backward` (`src/core/state.py` lines 73-96),
with an explicit fuel argument in place of Python's unbounded recursion:
`none` means the fuel ran out, and `backward_total` below shows that enough
fuel always exists, which is the termination of the source recursion.
On a revisited identity or past the depth bound the marker is returned and
`visited` is left unchanged; otherwise the identity is added to `visited`,
the node line is built, and the children are traversed with the threaded
set, joining all lines with newlines. -/
def buildTree (h : Heap) (mx : Option Nat) :
    Nat → Nat → Nat → Finset Nat → Option (String × Finset Nat)
  | 0, _, _, _ => none
  | fuel + 1, i, d, vis =>
    if i ∈ vis ∨ depthExceeded mx d = true then
      some (backwardMarker i d, vis)
    else
      let vis1 := insert i vis
      let current := backwardLine h i d
      if (h i).inputs = [] then
        some (current, vis1)
      else
        match treeFold (buildTree h mx fuel) (h i).inputs (d + 1) vis1 with
        | none => none
        | some (lines, vis2) =>
          some (String.intercalate "\n" (current :: lines), vis2)

/-- `State.backward` (`src/core/state.py` lines 71-98): run `build_tree` from
the start node at depth 0 with an empty visited set.  `univ` is the finite
set of heap identities in play; `univ.card + 1` is enough fuel whenever the
graph's input lists stay inside `univ` (`backward_total`). -/
def backward (h : Heap) (univ : Finset Nat) (i : Nat) (mx : Option Nat) :
    Option String :=
  (buildTree h mx (univ.card + 1) i 0 ∅).map Prod.fst

/-- `if count and depth >= count` (`src/core/agent.py` line 119): Python
truthiness makes `count = 0` falsy, so a zero count never cuts. -/
def countCutoff : Option Nat → Nat → Bool
  | none, _ => false
  | some c, d => decide (c ≠ 0) && decide (d ≥ c)

/-- The child loop of `trace_tree` (`src/core/agent.py` lines 133-138):
each child is rendered with the box-drawing connector chosen by whether it
is the last child, and — unlike `build_tree` — every child receives the
*same* visited set (`visited.copy()` per branch). -/
def traceChildren (f : Nat → Finset Nat → String → Option String) :
    List Nat → Finset Nat → String → Option String
  | [], _, _ => some ""
  | j :: rest, vis, pfx =>
    let isLast := rest.isEmpty
    let childPfx := pfx ++ (if isLast then "    " else "│   ")
    let connector := if isLast then "└── " else "├── "
    match f j vis childPfx with
    | none => none
    | some cs =>
      match traceChildren f rest vis pfx with
      | none => none
      | some more => some ("\n" ++ pfx ++ connector ++ cs ++ more)

/-- `trace_tree` inside `Logbook.display` (`src/core/agent.py` lines
115-141), fuel-explicit like `buildTree`.  Depth cutoff first (marker
`🔄 深度限制(count)`), then the cycle check on the current branch's visited
set (marker `🔄 note (循环引用)`); otherwise look up the first `OpRecord`
whose output is this bubble: if found, render `🧠 op -> 🎈 note` and recurse
into the record's inputs, each with a copy of the grown visited set; if not,
render the bubble as an origin leaf. -/
def traceTree (h : Heap) (records : List OpRecord) (count : Option Nat) :
    Nat → Nat → Nat → Finset Nat → String → Option String
  | 0, _, _, _, _ => none
  | fuel + 1, i, d, vis, pfx =>
    if countCutoff count d then
      some ("🔄 深度限制(" ++ toString (count.getD 0) ++ ")")
    else if i ∈ vis then
      some ("🔄 " ++ (h i).note ++ " (循环引用)")
    else
      let vis1 := insert i vis
      match records.find? (fun r => r.output == some i) with
      | some rec =>
        let result := "🧠 " ++ rec.op_name ++ " -> 🎈 " ++ (h i).note
        if rec.inputs = [] then
          some result
        else
          match traceChildren (fun j v p => traceTree h records count fuel j (d + 1) v p)
              rec.inputs vis1 pfx with
          | none => none
          | some childLines => some (result ++ childLines)
      | none => some ("🎈 Origin: " ++ (h i).note)

/-- The trace printed by `Logbook.display` for a given start bubble
(`src/core/agent.py` lines 101-144, the `trace_tree(from_bubble)` call):
depth 0, empty visited set, empty line prefix.  As for `backward`, `univ`
bounds the identities in play and `univ.card + 1` is enough fuel
(`display_total`). -/
def displayTrace (h : Heap) (records : List OpRecord) (univ : Finset Nat)
    (i : Nat) (count : Option Nat) : Option String :=
  traceTree h records count (univ.card + 1) i 0 ∅ ""

/-! ## Lemmas about the wiring loop -/

/-- A node that already carries a `creator_op` is never touched by the
output-wiring loop: the stamp happens only under the `creator_op is None`
test, and the node's own entry in the heap is otherwise left alone. -/
theorem stampLoop_preserves_stamped (op : Op) (ins : List Nat) :
    ∀ (outs : List PyVal) (h : Heap) (acc : List Nat) (i : Nat),
      (h i).creator_op ≠ none →
      (stampLoop op ins outs h acc).1 i = h i := by
  intro outs
  induction outs with
  | nil => intro h acc i _; rfl
  | cons v rest ih =>
    intro h acc i hi
    cases v with
    | state j =>
      by_cases hj : (h j).creator_op = none
      · have hij : i ≠ j := fun he => hi (he ▸ hj)
        have hup :
            updateHeap h j
              { h j with creator_op := some op, inputs := ins,
                         is_origin_attr := some false } i = h i := by
          simp [updateHeap, hij]
        simp only [stampLoop, if_pos hj]
        rw [ih _ _ _ (by rw [hup]; exact hi)]
        exact hup
      · simp only [stampLoop, if_neg hj]
        exact ih _ _ _ hi
    | other d => rfl

/-- The first heap component of `apply`, by cases on `forward`'s outcome. -/
theorem apply_fst (op : Op) (fwd : Heap → List Nat → Except String Fwd)
    (ins : List Nat) (h : Heap) :
    (apply op fwd ins h).1 =
      match fwd h ins with
      | .error _ => h
      | .ok f => (stampLoop op ins (normalize f) h []).1 := by
  unfold apply
  cases hfw : fwd h ins with
  | error e => rfl
  | ok f =>
    rcases hsl : stampLoop op ins (normalize f) h [] with ⟨h', r⟩
    cases r with
    | error e => simp [hsl]
    | ok ids =>
      rcases ids with _ | ⟨a, _ | ⟨b, tl⟩⟩ <;> simp [hsl]

/-- C1. For every Wiring Algorithm call, a `State` that already has a
producing operation when the call runs is left with exactly the fields it
had before — `creator_op`, `inputs` (and everything else in its heap entry)
are unchanged, whether the call succeeds or fails.  Stamping happens only
when `creator_op` is currently absent, so a second `apply` over the same
produced node leaves the first call's provenance intact. -/
theorem apply_idempotent_stamping (op : Op)
    (fwd : Heap → List Nat → Except String Fwd) (ins : List Nat) (h : Heap)
    (i : Nat) (hi : (h i).creator_op ≠ none) :
    (apply op fwd ins h).1 i = h i := by
  rw [apply_fst]
  cases hfw : fwd h ins with
  | error e => rfl
  | ok f => exact stampLoop_preserves_stamped op ins (normalize f) h [] i hi

/-- Witness for C1: a node already stamped by `opW` keeps its provenance
when a second operation returns it. -/
theorem apply_idempotent_stamping_witness :
    (let opW : Op := ⟨0, "OpW", "OpW"⟩
     let opV : Op := ⟨1, "OpV", "OpV"⟩
     let stamped : StateObj :=
       { payload_type := "BasePayload", creator_op := some opW,
         inputs := [5], can_trace := true, note := "", is_origin_attr := some false }
     let h : Heap := fun _ => stamped
     (apply opV (fun _ _ => .ok (.single (.state 0))) [7] h).1 0 = h 0) := by
  exact apply_idempotent_stamping _ _ _ _ 0 (by simp)

/-- When every produced value is a `State`, the wiring loop succeeds and
collects exactly the produced identities, in production order, after the
accumulator. -/
theorem stampLoop_all_states (op : Op) (ins : List Nat) :
    ∀ (ids : List Nat) (h : Heap) (acc : List Nat),
      (stampLoop op ins (ids.map PyVal.state) h acc).2 = .ok (acc ++ ids) := by
  intro ids
  induction ids with
  | nil => intro h acc; simp [stampLoop]
  | cons j rest ih =>
    intro h acc
    simp only [List.map_cons, stampLoop]
    rw [ih]
    simp

/-- C2. For every Wiring Algorithm call in which all produced values pass
validation (each one is a `State`): if exactly one node was produced, that
node itself is returned; if more than one was produced, the ordered sequence
of exactly those nodes, in production order, is returned. -/
theorem apply_singleton_collapse (op : Op)
    (fwd : Heap → List Nat → Except String Fwd) (ins : List Nat) (h : Heap)
    (f : Fwd) (ids : List Nat) (hf : fwd h ins = .ok f)
    (hn : normalize f = ids.map PyVal.state) :
    (∀ i, ids = [i] → (apply op fwd ins h).2 = .ok (ApplyRet.one i)) ∧
    (1 < ids.length → (apply op fwd ins h).2 = .ok (ApplyRet.many ids)) := by
  have hsl2 : (stampLoop op ins (normalize f) h []).2 = .ok ids := by
    rw [hn, stampLoop_all_states]; rfl
  rcases hsl : stampLoop op ins (normalize f) h [] with ⟨h', r⟩
  have hr : r = .ok ids := by rw [hsl] at hsl2; exact hsl2
  subst hr
  constructor
  · intro i hone
    subst hone
    simp [apply, hf, hsl]
  · intro hlen
    rcases ids with _ | ⟨a, _ | ⟨b, tl⟩⟩
    · simp at hlen
    · simp at hlen
    · simp [apply, hf, hsl]

/-- Witness for C2: a two-output call returns the ordered pair, a one-output
call returns the node itself. -/
theorem apply_singleton_collapse_witness :
    (let opW : Op := ⟨0, "OpW", "OpW"⟩
     let h : Heap := fun _ => default
     (apply opW (fun _ _ => .ok (.many [.state 4, .state 9])) [] h).2 =
       .ok (ApplyRet.many [4, 9]) ∧
     (apply opW (fun _ _ => .ok (.single (.state 4))) [] h).2 =
       .ok (ApplyRet.one 4)) := by
  constructor
  · exact (apply_singleton_collapse _ _ _ _ (.many [.state 4, .state 9])
      [4, 9] rfl (by rfl)).2 (by simp)
  · exact (apply_singleton_collapse _ _ _ _ (.single (.state 4))
      [4] rfl (by rfl)).1 4 rfl

/-! ## The origin invariant (C3) -/

/-- The spec's origin invariant over a heap: a node's producing operation is
absent exactly when its input list is empty. -/
def originInv (h : Heap) : Prop :=
  ∀ i, ((h i).creator_op = none ↔ (h i).inputs = [])

/-- Counterexample to C3 as stated.  The constructor accepts any combination
of the optional provenance arguments: `State(payload, inputs=[s])` yields
`creator_op is None` with a nonempty input list.  And a Wiring call with an
empty input sequence stamps a produced node with `creator_op` set and
`inputs == []`, breaking the other direction. -/
theorem origin_invariant_counterexample :
    ((mkState "BasePayload" none (some [7]) true "").creator_op = none ∧
     (mkState "BasePayload" none (some [7]) true "").inputs ≠ []) ∧
    (let opW : Op := ⟨0, "OpW", "OpW"⟩
     let h' := (apply opW (fun _ _ => .ok (.single (.state 0))) []
       (fun _ => default)).1
     (h' 0).creator_op ≠ none ∧ (h' 0).inputs = []) := by
  exact ⟨⟨rfl, by decide⟩, by decide, rfl⟩

/-- The wiring loop preserves the origin invariant when the call's input
sequence is nonempty: a stamped node gets `creator_op` set together with the
nonempty `inputs`, and every other node keeps its fields. -/
theorem stampLoop_originInv (op : Op) (ins : List Nat) (hne : ins ≠ []) :
    ∀ (outs : List PyVal) (h : Heap) (acc : List Nat),
      originInv h → originInv (stampLoop op ins outs h acc).1 := by
  intro outs
  induction outs with
  | nil => intro h acc hinv; exact hinv
  | cons v rest ih =>
    intro h acc hinv
    cases v with
    | state j =>
      by_cases hj : (h j).creator_op = none
      · simp only [stampLoop, if_pos hj]
        refine ih _ _ ?_
        intro i
        by_cases hij : i = j
        · subst hij
          simp [updateHeap, hne]
        · simpa [updateHeap, hij] using hinv i
      · simp only [stampLoop, if_neg hj]
        exact ih _ _ hinv
    | other d => intro i; exact hinv i

/-- C3, amended.  The claim fails for the public constructor, which accepts
any combination of the optional `creator_op`/`inputs` arguments without
relating them, and for a zero-input Wiring call
(`origin_invariant_counterexample`).  What holds: a node constructed with
both provenance arguments defaulted satisfies both sides of the invariant,
and the Wiring Algorithm preserves the invariant across a whole heap
whenever its input sequence is nonempty. -/
theorem origin_invariant_amended (p : String) (ct : Bool) (nt : String)
    (op : Op) (fwd : Heap → List Nat → Except String Fwd) (ins : List Nat)
    (h : Heap) (hne : ins ≠ []) (hinv : originInv h) :
    ((mkState p none none ct nt).creator_op = none ∧
     (mkState p none none ct nt).inputs = []) ∧
    originInv (apply op fwd ins h).1 := by
  refine ⟨⟨rfl, rfl⟩, ?_⟩
  rw [apply_fst]
  cases hfw : fwd h ins with
  | error e => exact hinv
  | ok f => exact stampLoop_originInv op ins hne (normalize f) h [] hinv

/-- Witness for C3's amended statement: the invariant survives a concrete
one-input wiring call over an all-default heap. -/
theorem origin_invariant_amended_witness :
    originInv (apply ⟨0, "OpW", "OpW"⟩
      (fun _ _ => .ok (.single (.state 1))) [0] (fun _ => default)).1 :=
  (origin_invariant_amended "BasePayload" true "" _ _ _ _ (by simp)
    (fun _ => ⟨fun _ => rfl, fun _ => rfl⟩)).2

/-! ## The `is_origin` attribute shadowing (C4) -/

/-- C4 names a genuine bug in the source.  `State.is_origin` is a method
(`src/core/state.py` lines 100-102), but `OpFunction.apply` executes
`output.is_origin = False` (`src/core/op.py` line 97), shadowing the method
with a `bool` instance attribute.  This theorem evaluates the code at the
failing input: an origin node answers `is_origin()` as specified, but after
the Wiring Algorithm stamps a produced node, calling `is_origin()` on it —
and `get_source()`, which starts with `if self.is_origin():` — raises
`TypeError` instead of succeeding. -/
theorem is_origin_shadowing_bug :
    (let opW : Op := ⟨0, "Op1", "Op1"⟩
     let h : Heap := fun _ => default
     let h' := (apply opW (fun _ _ => .ok (.single (.state 1))) [0] h).1
     isOriginCall (h 0) = .ok true ∧
     (h' 1).creator_op = some opW ∧
     isOriginCall (h' 1) = .error "TypeError: bool object is not callable" ∧
     getSourceCall (h' 1) = .error "TypeError: bool object is not callable") := by
  exact ⟨rfl, rfl, rfl, rfl⟩

/-! ## Output validation failures and the ledger (C5) -/

/-- If some produced value is not a `State`, the wiring loop raises. -/
theorem stampLoop_error_of_other (op : Op) (ins : List Nat) :
    ∀ (outs : List PyVal) (h : Heap) (acc : List Nat) (d : String),
      PyVal.other d ∈ outs →
      ∃ e, (stampLoop op ins outs h acc).2 = .error e := by
  intro outs
  induction outs with
  | nil => intro h acc d hd; cases hd
  | cons v rest ih =>
    intro h acc d hd
    cases v with
    | state j =>
      have hmem : PyVal.other d ∈ rest := by
        rcases List.mem_cons.mp hd with h1 | h2
        · cases h1
        · exact h2
      by_cases hj : (h j).creator_op = none
      · simpa only [stampLoop, if_pos hj] using ih _ _ d hmem
      · simpa only [stampLoop, if_neg hj] using ih _ _ d hmem
    | other d' =>
      exact ⟨"Op " ++ op.name ++ " output must be State, got " ++ d', rfl⟩

/-- Counterexample to C5 as stated.  The wiring loop stamps outputs eagerly,
one at a time, before validating the rest: when `forward` returns a fresh
`State` followed by a non-`State`, the call fails — but the fresh node has
already been stamped with `creator_op` and `inputs` by the failing call. -/
theorem no_partial_wiring_counterexample :
    (let opW : Op := ⟨0, "OpW", "OpW"⟩
     let res := apply opW (fun _ _ => .ok (.many [.state 1, .other "str"]))
       [0] (fun _ => default)
     res.2 = .error "Op OpW output must be State, got str" ∧
     (res.1 1).creator_op = some opW ∧
     (res.1 1).inputs = [0]) := by
  exact ⟨rfl, rfl, rfl⟩

/-- C5, amended.  When some produced value is not a `State`, the whole call
does fail with an error, and with a logbook in use the invocation is
finalized as a single `failed` record — the bubble list is untouched and no
record is finalized as `completed` by the call.  However, produced nodes
processed before the first invalid value have already been stamped
(`no_partial_wiring_counterexample`); only the ledger half of the claim
survives. -/
theorem wiring_failure_no_completed (op : Op)
    (fwd : Heap → List Nat → Except String Fwd) (ins : List Nat) (h : Heap)
    (book : Logbook) (f : Fwd) (d : String)
    (hf : fwd h ins = .ok f) (hbad : PyVal.other d ∈ normalize f) :
    ∃ e, (apply op fwd ins h).2 = .error e ∧
      opCall op fwd ins (some book) h =
        ((apply op fwd ins h).1,
         some { book with op_records :=
                  book.op_records ++ [(OpRecord.init op.name ins).fail e] },
         .error e) ∧
      ((OpRecord.init op.name ins).fail e).status = "failed" := by
  obtain ⟨e, he⟩ :=
    stampLoop_error_of_other op ins (normalize f) h [] d hbad
  rcases hsl : stampLoop op ins (normalize f) h [] with ⟨h', r⟩
  have hr : r = .error e := by rw [hsl] at he; exact he
  subst hr
  refine ⟨e, ?_, ?_, rfl⟩
  · simp [apply, hf, hsl]
  · simp [opCall, apply, hf, hsl, logRecord]

/-- Witness for C5's amended statement, at the counterexample's input. -/
theorem wiring_failure_no_completed_witness :
    ∃ e, (apply ⟨0, "OpW", "OpW"⟩
            (fun _ _ => .ok (.many [.state 1, .other "str"])) [0]
            (fun _ => default)).2 = .error e ∧
      opCall ⟨0, "OpW", "OpW"⟩
          (fun _ _ => .ok (.many [.state 1, .other "str"])) [0]
          (some ⟨"lab", [], []⟩) (fun _ => default) =
        ((apply ⟨0, "OpW", "OpW"⟩
            (fun _ _ => .ok (.many [.state 1, .other "str"])) [0]
            (fun _ => default)).1,
         some { name := "lab", op_records := [(OpRecord.init "OpW" [0]).fail e],
                bubbles := [] },
         .error e) ∧
      ((OpRecord.init "OpW" [0]).fail e).status = "failed" := by
  have := wiring_failure_no_completed ⟨0, "OpW", "OpW"⟩
    (fun _ _ => .ok (.many [.state 1, .other "str"])) [0]
    (fun _ => default) ⟨"lab", [], []⟩ (.many [.state 1, .other "str"])
    "str" rfl (by decide)
  exact this

/-! ## The ledger recording contract (C6) -/

/-- Counterexample to C6 as stated.  With an `op_name` and *both* a bubble
and an error string supplied, `Logbook.record` does not fail loudly: the
`if bubble is not None:` branch wins, a `completed` record is appended, the
bubble is appended, and the error string is silently discarded. -/
theorem record_both_present_counterexample :
    logRecord ⟨"L", [], []⟩ (some 3) (some "OpX") (some [1]) (some "boom") =
      .ok ⟨"L", [{ op_name := "OpX", inputs := [1], output := some 3,
                   status := "completed", error := none }], [3]⟩ := rfl

/-- C6, amended.  With an `op_name` given (and `inputs` present): a bubble
alone appends a `completed` record and the bubble; an error alone appends a
`failed` record; neither raises `ValueError`; but when *both* are supplied
the call silently takes the bubble branch — a `completed` record is appended
and the error string is discarded, not an error. -/
theorem record_contract_amended (book : Logbook) (nm : String)
    (ins : List Nat) (b : Nat) (e : String) :
    (logRecord book (some b) (some nm) (some ins) none =
      .ok { book with
        op_records := book.op_records ++ [(OpRecord.init nm ins).complete b],
        bubbles := book.bubbles ++ [b] } ∧
     ((OpRecord.init nm ins).complete b).status = "completed") ∧
    (logRecord book none (some nm) (some ins) (some e) =
      .ok { book with
        op_records := book.op_records ++ [(OpRecord.init nm ins).fail e] } ∧
     ((OpRecord.init nm ins).fail e).status = "failed") ∧
    logRecord book none (some nm) (some ins) none =
      .error "Either bubble or error must be provided for Op execution" ∧
    logRecord book (some b) (some nm) (some ins) (some e) =
      .ok { book with
        op_records := book.op_records ++ [(OpRecord.init nm ins).complete b],
        bubbles := book.bubbles ++ [b] } := by
  exact ⟨⟨rfl, rfl⟩, ⟨rfl, rfl⟩, rfl, rfl⟩

/-! ## Operation-logic failures (C7) -/

/-- C7.  When the production logic raises with message `msg`, the Wiring
Algorithm catches it exactly once and re-signals it as
`RuntimeError("Op {name} failed: {msg}")`, carrying the original message as
a substring; the heap is untouched.  With a logbook in use, the invocation
appends exactly one record with status `failed` whose error text is that
wrapped message, and the logbook's bubble list gains no node. -/
theorem forward_failure_wrapped (op : Op)
    (fwd : Heap → List Nat → Except String Fwd) (states : List Nat)
    (h : Heap) (book : Logbook) (msg : String)
    (hf : fwd h states = .error msg) :
    apply op fwd states h =
      (h, .error ("Op " ++ op.name ++ " failed: " ++ msg)) ∧
    opCall op fwd states (some book) h =
      (h, some { book with op_records := book.op_records ++
          [(OpRecord.init op.name states).fail
            ("Op " ++ op.name ++ " failed: " ++ msg)] },
       .error ("Op " ++ op.name ++ " failed: " ++ msg)) ∧
    (∃ p q, ("Op " ++ op.name ++ " failed: " ++ msg) = p ++ msg ++ q) ∧
    ((OpRecord.init op.name states).fail
      ("Op " ++ op.name ++ " failed: " ++ msg)).status = "failed" := by
  refine ⟨?_, ?_, ⟨"Op " ++ op.name ++ " failed: ", "", ?_⟩, rfl⟩
  · simp [apply, hf]
  · simp [opCall, apply, hf, logRecord]
  · simp

/-- Witness for C7: a concrete raising `forward` with a nonempty logbook. -/
theorem forward_failure_wrapped_witness :
    apply ⟨0, "Op3", "Op3"⟩ (fun _ _ => .error "bad input") [2]
        (fun _ => default) =
      (fun _ => default, .error "Op Op3 failed: bad input") ∧
    opCall ⟨0, "Op3", "Op3"⟩ (fun _ _ => .error "bad input") [2]
        (some ⟨"lab", [], [2]⟩) (fun _ => default) =
      (fun _ => default,
       some ⟨"lab", [(OpRecord.init "Op3" [2]).fail "Op Op3 failed: bad input"],
             [2]⟩,
       .error "Op Op3 failed: bad input") := by
  have := forward_failure_wrapped ⟨0, "Op3", "Op3"⟩
    (fun _ _ => .error "bad input") [2] (fun _ => default)
    ⟨"lab", [], [2]⟩ "bad input" rfl
  exact ⟨this.1, this.2.1⟩

/-! ## Concrete graph fixtures for the traversal claims -/

/-- A substring statement: `pat` occurs somewhere in `s`. -/
def strContains (s pat : String) : Prop :=
  ∃ p q, s = p ++ pat ++ q

/-- Boolean prefix test on character lists. -/
def charsStartWith : List Char → List Char → Bool
  | [], _ => true
  | _ :: _, [] => false
  | a :: as, b :: bs => a == b && charsStartWith as bs

/-- Boolean substring test on character lists. -/
def charsHaveSub (pat : List Char) : List Char → Bool
  | [] => pat.isEmpty
  | b :: bs => charsStartWith pat (b :: bs) || charsHaveSub pat bs

/-- Decidable substring test on strings. -/
def strHasSub (s pat : String) : Bool :=
  charsHaveSub pat.data s.data

/-- A quick concrete state-object builder for fixtures. -/
def node (cr : Option Op) (ins : List Nat) (nt : String) : StateObj :=
  { payload_type := "BasePayload", creator_op := cr, inputs := ins,
    can_trace := true, note := nt, is_origin_attr := none }

def fxOpA : Op := ⟨0, "OpA", "OpA"⟩

def fxOpB : Op := ⟨1, "OpB", "OpB"⟩

def fxOpC : Op := ⟨2, "OpC", "OpC"⟩

def fxOpD : Op := ⟨3, "OpD", "OpD"⟩

/-- Diamond: origin `0`, nodes `1` and `2` both produced from `0` by
different operations, node `3` produced from `[1, 2]` — the two subtrees of
`3` share the ancestor `0`, but the graph is acyclic. -/
def hDiamond : Heap := fun i =>
  if i = 0 then node none [] "noteA"
  else if i = 1 then node (some fxOpB) [0] "noteB"
  else if i = 2 then node (some fxOpC) [0] "noteC"
  else if i = 3 then node (some fxOpD) [1, 2] "noteD"
  else default

/-- The ledger records matching `hDiamond`. -/
def recsDiamond : List OpRecord :=
  [{ op_name := "OpB", inputs := [0], output := some 1,
     status := "completed", error := none },
   { op_name := "OpC", inputs := [0], output := some 2,
     status := "completed", error := none },
   { op_name := "OpD", inputs := [1, 2], output := some 3,
     status := "completed", error := none }]

/-- A two-node input cycle, constructed by bypassing the Wiring Algorithm:
`0.inputs = [1]` and `1.inputs = [0]`. -/
def hCyc : Heap := fun i =>
  if i = 0 then node (some fxOpA) [1] "note0"
  else if i = 1 then node (some fxOpB) [0] "note1"
  else default

/-- Ledger records whose input pointers close the same cycle. -/
def recsCyc : List OpRecord :=
  [{ op_name := "OpA", inputs := [1], output := some 0,
     status := "completed", error := none },
   { op_name := "OpB", inputs := [0], output := some 1,
     status := "completed", error := none }]

/-- A three-node chain `2 ← 1 ← 0` for the depth-bound claims. -/
def hChain : Heap := fun i =>
  if i = 0 then node none [] "noteA"
  else if i = 1 then node (some fxOpB) [0] "noteB"
  else if i = 2 then node (some fxOpC) [1] "noteC"
  else default

/-- The ledger records matching `hChain`. -/
def recsChain : List OpRecord :=
  [{ op_name := "Op1", inputs := [0], output := some 1,
     status := "completed", error := none },
   { op_name := "Op2", inputs := [1], output := some 2,
     status := "completed", error := none }]

/-! ## Per-branch visited sets (C8) -/

/-- Counterexample to C8 as stated.  `State.backward` passes one shared
mutable `visited` set to every child (`src/core/state.py` line 93), not a
per-branch copy: on the acyclic diamond, the shared ancestor `0` is rendered
normally inside the first sibling's subtree but emitted as the cycle marker
inside the second sibling's subtree, although `0` is not on the current
root-to-node path there. -/
theorem visited_per_branch_counterexample :
    backward hDiamond {0, 1, 2, 3} 3 none =
      some ("🎈 bubble_3: BasePayload ←OpD | noteD\n" ++
            "  🎈 bubble_1: BasePayload ←OpB | noteB\n" ++
            "    🎈 bubble_0: BasePayload (原始) | noteA\n" ++
            "  🎈 bubble_2: BasePayload ←OpC | noteC\n" ++
            "    🔄 bubble_0 (循环引用或深度限制)") ∧
    strHasSub ("  🎈 bubble_2: BasePayload ←OpC | noteC\n" ++
               "    🔄 bubble_0 (循环引用或深度限制)")
      "🔄 bubble_0" = true := by
  exact ⟨rfl, rfl⟩

/-- C8, amended.  Only `Logbook.display` keeps the visited set per branch
(`visited.copy()` per child, `src/core/agent.py` line 137): on the diamond
it renders the shared ancestor normally in *both* sibling subtrees, emitting
no cycle marker.  `State.backward` shares a single visited set across
sibling branches, so the same ancestor is rendered normally only in the
first sibling's subtree and as the cycle marker in the second, even though
it is not on that branch's root-to-node path. -/
theorem visited_per_branch_amended :
    (displayTrace hDiamond recsDiamond {0, 1, 2, 3} 3 none =
      some ("🧠 OpD -> 🎈 noteD\n" ++
            "├── 🧠 OpB -> 🎈 noteB\n" ++
            "│   └── 🎈 Origin: noteA\n" ++
            "└── 🧠 OpC -> 🎈 noteC\n" ++
            "    └── 🎈 Origin: noteA") ∧
     strHasSub ("🧠 OpD -> 🎈 noteD\n" ++
            "├── 🧠 OpB -> 🎈 noteB\n" ++
            "│   └── 🎈 Origin: noteA\n" ++
            "└── 🧠 OpC -> 🎈 noteC\n" ++
            "    └── 🎈 Origin: noteA") "循环引用" = false) ∧
    (backward hDiamond {0, 1, 2, 3} 3 none =
      some ("🎈 bubble_3: BasePayload ←OpD | noteD\n" ++
            "  🎈 bubble_1: BasePayload ←OpB | noteB\n" ++
            "    🎈 bubble_0: BasePayload (原始) | noteA\n" ++
            "  🎈 bubble_2: BasePayload ←OpC | noteC\n" ++
            "    🔄 bubble_0 (循环引用或深度限制)") ∧
     strContains ("🎈 bubble_3: BasePayload ←OpD | noteD\n" ++
            "  🎈 bubble_1: BasePayload ←OpB | noteB\n" ++
            "    🎈 bubble_0: BasePayload (原始) | noteA\n" ++
            "  🎈 bubble_2: BasePayload ←OpC | noteC\n" ++
            "    🔄 bubble_0 (循环引用或深度限制)")
        "🔄 bubble_0 (循环引用或深度限制)") := by
  refine ⟨⟨rfl, rfl⟩, rfl, ?_⟩
  exact ⟨"🎈 bubble_3: BasePayload ←OpD | noteD\n" ++
            "  🎈 bubble_1: BasePayload ←OpB | noteB\n" ++
            "    🎈 bubble_0: BasePayload (原始) | noteA\n" ++
            "  🎈 bubble_2: BasePayload ←OpC | noteC\n" ++
            "    ", "", by rfl⟩

/-! ## Termination of the traversals (C9) -/

/-- Sequential child traversal succeeds and only grows the threaded visited
set, provided the node-level step does so for every set extending `base`
inside `univ`. -/
theorem treeFold_total (univ base : Finset Nat)
    (f : Nat → Nat → Finset Nat → Option (String × Finset Nat))
    (hf : ∀ j d vis, j ∈ univ → vis ⊆ univ → base ⊆ vis →
      ∃ s vis', f j d vis = some (s, vis') ∧ vis ⊆ vis' ∧ vis' ⊆ univ) :
    ∀ (l : List Nat) (d : Nat) (vis : Finset Nat),
      (∀ j ∈ l, j ∈ univ) → vis ⊆ univ → base ⊆ vis →
      ∃ ls vis', treeFold f l d vis = some (ls, vis') ∧
        vis ⊆ vis' ∧ vis' ⊆ univ := by
  intro l
  induction l with
  | nil =>
    intro d vis _ hsub _
    exact ⟨[], vis, rfl, Finset.Subset.refl vis, hsub⟩
  | cons j rest ih =>
    intro d vis hl hsub hbase
    obtain ⟨s, vis1, hfj, h01, h1u⟩ :=
      hf j d vis (hl j (List.mem_cons_self j rest)) hsub hbase
    obtain ⟨ls, vis2, hrest, h12, h2u⟩ :=
      ih d vis1 (fun a ha => hl a (List.mem_cons_of_mem j ha)) h1u
        (Finset.Subset.trans hbase h01)
    refine ⟨s :: ls, vis2, ?_, Finset.Subset.trans h01 h12, h2u⟩
    simp [treeFold, hfj, hrest]

/-- Fuel sufficiency for `build_tree`: on a heap whose input lists stay
inside the finite identity set `univ`, any fuel exceeding the number of
not-yet-visited identities completes the walk — this is exactly why the
source recursion terminates (each recursive call strictly grows the shared
visited set, which is bounded by the finite set of reachable objects). -/
theorem buildTree_total (h : Heap) (univ : Finset Nat) (mx : Option Nat)
    (hcl : ∀ a ∈ univ, ∀ b ∈ (h a).inputs, b ∈ univ) :
    ∀ (fuel i d : Nat) (vis : Finset Nat),
      i ∈ univ → vis ⊆ univ → univ.card - vis.card < fuel →
      ∃ s vis', buildTree h mx fuel i d vis = some (s, vis') ∧
        vis ⊆ vis' ∧ vis' ⊆ univ := by
  intro fuel
  induction fuel with
  | zero => intro i d vis _ _ hlt; omega
  | succ fuel ih =>
    intro i d vis hi hsub hlt
    by_cases hguard : i ∈ vis ∨ depthExceeded mx d = true
    · refine ⟨backwardMarker i d, vis, ?_, Finset.Subset.refl vis, hsub⟩
      simp [buildTree, hguard]
    · have hiv : i ∉ vis := fun hmem => hguard (Or.inl hmem)
      have hsub1 : insert i vis ⊆ univ := Finset.insert_subset hi hsub
      have hcard1 : (insert i vis).card = vis.card + 1 :=
        Finset.card_insert_of_not_mem hiv
      by_cases hin : (h i).inputs = []
      · refine ⟨backwardLine h i d, insert i vis, ?_,
          Finset.subset_insert i vis, hsub1⟩
        simp [buildTree, hguard, hin]
      · have hfold := treeFold_total univ (insert i vis)
          (buildTree h mx fuel) ?hf (h i).inputs (d + 1) (insert i vis)
          (fun b hb => hcl i hi b hb) hsub1 (Finset.Subset.refl _)
        case hf =>
          intro j d' vis2 hj hsub2 hbase2
          have hle : (insert i vis).card ≤ vis2.card :=
            Finset.card_le_card hbase2
          have hvu : vis2.card ≤ univ.card := Finset.card_le_card hsub2
          exact ih j d' vis2 hj hsub2 (by omega)
        obtain ⟨ls, vis2, hfeq, h12, h2u⟩ := hfold
        refine ⟨String.intercalate "\n" (backwardLine h i d :: ls), vis2, ?_,
          Finset.Subset.trans (Finset.subset_insert i vis) h12, h2u⟩
        simp [buildTree, hguard, hin, hfeq]

/-- The child loop of `trace_tree` succeeds whenever the node-level step
succeeds on each child with the branch's (fixed, copied) visited set. -/
theorem traceChildren_total (P : Nat → Prop)
    (f : Nat → Finset Nat → String → Option String) (vis : Finset Nat)
    (hf : ∀ j p, P j → ∃ s, f j vis p = some s) :
    ∀ (l : List Nat) (pfx : String), (∀ j ∈ l, P j) →
      ∃ s, traceChildren f l vis pfx = some s := by
  intro l
  induction l with
  | nil => intro pfx _; exact ⟨"", rfl⟩
  | cons j rest ih =>
    intro pfx hl
    obtain ⟨s, hs⟩ := hf j (pfx ++ if rest.isEmpty then "    " else "│   ")
      (hl j (List.mem_cons_self j rest))
    obtain ⟨more, hmore⟩ := ih pfx (fun a ha => hl a (List.mem_cons_of_mem j ha))
    refine ⟨("\n" ++ pfx ++ (if rest.isEmpty then "└── " else "├── "))
      ++ s ++ more, ?_⟩
    simp only [traceChildren]
    rw [hs, hmore]

/-- Fuel sufficiency for `trace_tree`: with the ledger's input pointers
confined to the finite identity set `univ`, any fuel exceeding the number of
not-yet-visited identities completes the walk — the per-branch visited copy
grows strictly along every path, which is bounded by `univ`. -/
theorem traceTree_total (h : Heap) (records : List OpRecord)
    (univ : Finset Nat) (count : Option Nat)
    (hcl : ∀ r ∈ records, ∀ b ∈ r.inputs, b ∈ univ) :
    ∀ (fuel i d : Nat) (vis : Finset Nat) (pfx : String),
      i ∈ univ → vis ⊆ univ → univ.card - vis.card < fuel →
      ∃ s, traceTree h records count fuel i d vis pfx = some s := by
  intro fuel
  induction fuel with
  | zero => intro i d vis pfx _ _ hlt; omega
  | succ fuel ih =>
    intro i d vis pfx hi hsub hlt
    by_cases hcut : countCutoff count d = true
    · refine ⟨"🔄 深度限制(" ++ toString (count.getD 0) ++ ")", ?_⟩
      simp [traceTree, hcut]
    · by_cases hv : i ∈ vis
      · refine ⟨"🔄 " ++ (h i).note ++ " (循环引用)", ?_⟩
        simp [traceTree, hcut, hv]
      · have hsub1 : insert i vis ⊆ univ := Finset.insert_subset hi hsub
        have hcard1 : (insert i vis).card = vis.card + 1 :=
          Finset.card_insert_of_not_mem hv
        have hvu : (insert i vis).card ≤ univ.card :=
          Finset.card_le_card hsub1
        cases hfind : records.find? (fun r => r.output == some i) with
        | none =>
          refine ⟨"🎈 Origin: " ++ (h i).note, ?_⟩
          simp [traceTree, hcut, hv, hfind]
        | some rec =>
          by_cases hin : rec.inputs = []
          · refine ⟨"🧠 " ++ rec.op_name ++ " -> 🎈 " ++ (h i).note, ?_⟩
            simp [traceTree, hcut, hv, hfind, hin]
          · have hrec : rec ∈ records := List.mem_of_find?_eq_some hfind
            obtain ⟨cs, hcs⟩ := traceChildren_total (fun j => j ∈ univ)
              (fun j v p => traceTree h records count fuel j (d + 1) v p)
              (insert i vis)
              (fun j p hj => ih j (d + 1) (insert i vis) p hj hsub1 (by omega))
              rec.inputs pfx (fun b hb => hcl rec hrec b hb)
            refine ⟨"🧠 " ++ rec.op_name ++ " -> 🎈 " ++ (h i).note ++ cs, ?_⟩
            simp [traceTree, hcut, hv, hfind, hin, hcs]

/-- C9.  Both traversal algorithms terminate on every finite graph, cyclic
ones included: for `State.backward` it is enough that the heap's input
pointers stay inside a finite identity set containing the start node, and
for `Logbook.display` that the ledger records' input pointers do; in either
case the chosen fuel `univ.card + 1` always suffices, which is the
termination of the source's unbounded recursion.  On the two-node cycle
built by bypassing the Wiring Algorithm, both walks stop and emit their
explicit cycle markers (`循环引用或深度限制` resp. `循环引用`) instead of
recursing indefinitely. -/
theorem traversal_termination :
    (∀ (h : Heap) (univ : Finset Nat) (i : Nat) (mx : Option Nat),
        (∀ a ∈ univ, ∀ b ∈ (h a).inputs, b ∈ univ) → i ∈ univ →
        (backward h univ i mx).isSome = true) ∧
    (∀ (h : Heap) (records : List OpRecord) (univ : Finset Nat) (i : Nat)
        (count : Option Nat),
        (∀ r ∈ records, ∀ b ∈ r.inputs, b ∈ univ) → i ∈ univ →
        (displayTrace h records univ i count).isSome = true) ∧
    backward hCyc {0, 1} 0 none =
      some ("🎈 bubble_0: BasePayload ←OpA | note0\n" ++
            "  🎈 bubble_1: BasePayload ←OpB | note1\n" ++
            "    🔄 bubble_0 (循环引用或深度限制)") ∧
    displayTrace hCyc recsCyc {0, 1} 0 none =
      some ("🧠 OpA -> 🎈 note0\n" ++
            "└── 🧠 OpB -> 🎈 note1\n" ++
            "    └── 🔄 note0 (循环引用)") := by
  refine ⟨?_, ?_, rfl, rfl⟩
  · intro h univ i mx hcl hi
    obtain ⟨s, vis', heq, -, -⟩ := buildTree_total h univ mx hcl
      (univ.card + 1) i 0 ∅ hi (Finset.empty_subset univ) (by simp)
    rw [backward, heq]
    rfl
  · intro h records univ i count hcl hi
    obtain ⟨s, heq⟩ := traceTree_total h records univ count hcl
      (univ.card + 1) i 0 ∅ "" hi (Finset.empty_subset univ) (by simp)
    rw [displayTrace, heq]
    rfl

/-- Witness for C9: the universally quantified termination parts,
instantiated on the concrete two-node cycle. -/
theorem traversal_termination_witness :
    (backward hCyc {0, 1} 0 none).isSome = true ∧
    (displayTrace hCyc recsCyc {0, 1} 0 none).isSome = true := by
  constructor
  · exact traversal_termination.1 hCyc {0, 1} 0 none (by decide) (by decide)
  · exact traversal_termination.2.1 hCyc recsCyc {0, 1} 0 none (by decide)
      (by decide)

/-! ## Depth bounds (C10) -/

/-- Counterexample to C10 as stated.  For `Logbook.display`, the depth guard
is `if count and depth >= count:` — Python truthiness makes `count = 0`
falsy, so `count=0` disables the limit instead of bounding the walk at 0
hops: starting from the chain node `1` with `count = 0`, the ancestor at one
hop is still rendered and no depth-limit marker appears anywhere. -/
theorem depth_bound_counterexample :
    displayTrace hChain recsChain {0, 1, 2} 1 (some 0) =
      some ("🧠 Op1 -> 🎈 noteB\n└── 🎈 Origin: noteA") ∧
    strHasSub ("🧠 Op1 -> 🎈 noteB\n└── 🎈 Origin: noteA")
      "Origin: noteA" = true ∧
    strHasSub ("🧠 Op1 -> 🎈 noteB\n└── 🎈 Origin: noteA")
      "深度限制" = false := by
  exact ⟨rfl, rfl, rfl⟩

/-- Rendering children is pointwise-congruent in the node-level step. -/
theorem traceChildren_congr (f g : Nat → Finset Nat → String → Option String)
    (hfg : ∀ j v p, f j v p = g j v p) :
    ∀ (l : List Nat) (vis : Finset Nat) (pfx : String),
      traceChildren f l vis pfx = traceChildren g l vis pfx := by
  intro l
  induction l with
  | nil => intro vis pfx; rfl
  | cons j rest ih =>
    intro vis pfx
    simp only [traceChildren]
    rw [hfg, ih]

/-- `count = 0` is falsy in `if count and depth >= count:`, so `trace_tree`
with `count = 0` behaves exactly as with `count = None` — no depth limit. -/
theorem traceTree_count_zero (h : Heap) (recs : List OpRecord) :
    ∀ (fuel i d : Nat) (vis : Finset Nat) (pfx : String),
      traceTree h recs (some 0) fuel i d vis pfx =
        traceTree h recs none fuel i d vis pfx := by
  intro fuel
  induction fuel with
  | zero => intro i d vis pfx; rfl
  | succ fuel ih =>
    intro i d vis pfx
    have hc : countCutoff (some 0) d = false := by simp [countCutoff]
    have hn : countCutoff none d = false := rfl
    simp only [traceTree, hc, hn, Bool.false_eq_true, if_false]
    by_cases hv : i ∈ vis
    · simp [hv]
    · simp only [hv, if_false]
      cases hfind : recs.find? (fun r => r.output == some i) with
      | none => simp [hfind]
      | some rec =>
        simp only [hfind]
        by_cases hin : rec.inputs = []
        · simp [hin]
        · simp only [hin, if_false]
          rw [traceChildren_congr _ _ (fun j v p => ih j (d + 1) v p)]

/-- C10, amended.  For `State.backward` the claim holds for every
`max_depth = k`, `k = 0` included: any call at depth `> k` returns only the
cutoff marker (the source's combined cycle-or-depth-limit marker), so no
node more than `k` hops from the start is ever rendered.  For
`Logbook.display` the claim holds for every `count = k ≥ 1`: any call at
depth `≥ k` returns only the `深度限制` marker.  But `count = 0` is falsy in
the guard and disables the limit entirely, behaving exactly like
`count = None` (`depth_bound_counterexample`).  The two concrete chains show
the markers appearing at the cutoffs. -/
theorem depth_bound_amended :
    (∀ (h : Heap) (k fuel i d : Nat) (vis : Finset Nat), k < d →
        buildTree h (some k) (fuel + 1) i d vis =
          some (backwardMarker i d, vis)) ∧
    (∀ (h : Heap) (recs : List OpRecord) (c fuel i d : Nat)
        (vis : Finset Nat) (pfx : String), c ≠ 0 → c ≤ d →
        traceTree h recs (some c) (fuel + 1) i d vis pfx =
          some ("🔄 深度限制(" ++ toString c ++ ")")) ∧
    (∀ (h : Heap) (recs : List OpRecord) (fuel i d : Nat)
        (vis : Finset Nat) (pfx : String),
        traceTree h recs (some 0) fuel i d vis pfx =
          traceTree h recs none fuel i d vis pfx) ∧
    backward hChain {0, 1, 2} 2 (some 1) =
      some ("🎈 bubble_2: BasePayload ←OpC | noteC\n" ++
            "  🎈 bubble_1: BasePayload ←OpB | noteB\n" ++
            "    🔄 bubble_0 (循环引用或深度限制)") ∧
    displayTrace hChain recsChain {0, 1, 2} 2 (some 1) =
      some ("🧠 Op2 -> 🎈 noteC\n└── 🔄 深度限制(1)") := by
  refine ⟨?_, ?_, traceTree_count_zero, rfl, rfl⟩
  · intro h k fuel i d vis hd
    have hguard : i ∈ vis ∨ depthExceeded (some k) d = true :=
      Or.inr (by simp [depthExceeded]; omega)
    simp [buildTree, hguard, backwardMarker]
  · intro h recs c fuel i d vis pfx hc hd
    have hcut : countCutoff (some c) d = true := by
      simp [countCutoff, hc, hd]
    simp [traceTree, hcut]

/-- Witness for C10's amended statement: the two cutoff branches fire at a
concrete depth-limited call on the chain. -/
theorem depth_bound_amended_witness :
    buildTree hChain (some 1) 3 2 2 ∅ = some (backwardMarker 2 2, ∅) ∧
    traceTree hChain recsChain (some 1) 3 2 1 ∅ "" =
      some ("🔄 深度限制(" ++ toString 1 ++ ")") := by
  constructor
  · exact depth_bound_amended.1 hChain 1 2 2 2 ∅ (by decide)
  · exact depth_bound_amended.2.1 hChain recsChain 1 2 2 1 ∅ ""
      (by decide) (by decide)

end AISP
